import Mathlib

/-!
Shallow embedding of `get_welsh_castles_from_wikidata.py`.

The program fetches JSON from the Wikidata SPARQL endpoint, maps the
`results.bindings` array to a list of castle records, and either downloads
one image or repopulates a SQLite table.  We embed the pure data-shaping
core: the JSON-to-record mapper (`get_castles_from_json`), the bounded
integer input loop (`get_integer_input_in_range`, `get_option_from_list`),
the option-0 image filter, and the persistence branch of `main` (statement
selection and the resulting table state).  I/O effects (HTTP, console,
files) are made explicit: console input becomes a list of lines, the SQLite
table becomes an explicit state value, and Python exceptions (KeyError,
EOFError) become `Option` failure.
-/

namespace WelshCastles

/-- One element of the JSON `results.bindings` array, restricted to the three
variables the program reads.  In the real response each present variable is
an object whose `value` field is a string; we collapse
`item["itemLabel"]["value"]` into a single optional string, where `none`
means the key is absent (a read of an absent key raises KeyError in Python,
which we model as `Option` failure). -/
structure Binding where
  itemLabel : Option String
  locationLabel : Option String
  image : Option String
  deriving Repr, DecidableEq

/-- The castle dictionary built by the loop body of `get_castles_from_json`
(src lines 57-67): required string fields `name` and `location`, and an
`image` field that is `None` (here `none`) when the binding lacks the key. -/
structure Castle where
  name : String
  location : String
  image : Option String
  deriving Repr, DecidableEq

/-- Loop body of `get_castles_from_json` (src lines 57-67) as a fallible
step: `castle["name"] = item["itemLabel"]["value"]` and
`castle["location"] = item["locationLabel"]["value"]` raise KeyError when
the key is absent (modelled by `none`); `image` defaults to `None`. -/
def mapBinding (item : Binding) : Option Castle :=
  match item.itemLabel with
  | none => none
  | some n =>
    match item.locationLabel with
    | none => none
    | some l => some { name := n, location := l, image := item.image }

/-- The function `get_castles_from_json` (src lines 45-69): iterate over
`json_data["results"]["bindings"]`, building one castle per binding; a
KeyError on any binding aborts the whole call (modelled as `none`). -/
def get_castles_from_json : List Binding → Option (List Castle)
  | [] => some []
  | item :: rest =>
    match mapBinding item with
    | none => none
    | some c =>
      match get_castles_from_json rest with
      | none => none
      | some cs => some (c :: cs)

/-- Python dictionary with string keys and string-or-None values, as an
association list in insertion order; used to state facts about the literal
dictionary built by the mapper loop body. -/
def dictLookup (d : List (String × Option String)) (k : String) :
    Option (Option String) :=
  match d with
  | [] => none
  | (k2, v) :: rest => if k2 = k then some v else dictLookup rest k

/-- The same loop body of `get_castles_from_json` (src lines 57-67) kept as
the literal Python dictionary it builds, in assignment order: `name`, then
`location`, then `image` (always assigned, `None` when the key is absent). -/
def castleDict (item : Binding) : Option (List (String × Option String)) :=
  match item.itemLabel with
  | none => none
  | some n =>
    match item.locationLabel with
    | none => none
    | some l =>
      some [("name", some n), ("location", some l), ("image", item.image)]

/-- Python truthiness of a string-or-None value: `None` and the empty
string are falsy, every other string is truthy.  This is the test
`if castle["image"]:` performs at src line 244. -/
def pyTruthy : Option String → Bool
  | none => false
  | some s => !(s == "")

/-- The two parameterized insert statements of the persistence branch
(src lines 234-251): `insertCastleImage.sql` with three bound parameters,
`insertCastleWithoutImage.sql` with two. -/
inductive InsertStmt where
  | withImage (name location image : String)
  | withoutImage (name location : String)
  deriving Repr, DecidableEq

/-- Whether an insert statement is the three-parameter variant. -/
def InsertStmt.threeParam : InsertStmt → Bool
  | .withImage _ _ _ => true
  | .withoutImage _ _ => false

/-- Statement selection of the insert loop in `main` (src lines 239-251):
`if castle["image"]:` picks the three-parameter statement with tuple
`(name, location, image)`, else the two-parameter statement with tuple
`(name, location)`.  The branch tests Python truthiness, not presence. -/
def insertStatementFor (castle : Castle) : InsertStmt :=
  if pyTruthy castle.image then
    .withImage castle.name castle.location (castle.image.getD "")
  else
    .withoutImage castle.name castle.location

/-- SQL statements issued by the persistence branch of `main`
(src lines 228-251): the schema statement from `createTable.sql`, the
delete-all statement from `deleteData.sql`, and one insert per castle. -/
inductive SqlStmt where
  | createTable
  | deleteAll
  | insert (s : InsertStmt)
  deriving Repr, DecidableEq

/-- The statement sequence the persistence branch of `main` executes, in
source order: schema statement, delete-all statement, then one insert per
castle in list order (src lines 228-251). -/
def persistenceStatements (castles : List Castle) : List SqlStmt :=
  SqlStmt.createTable :: SqlStmt.deleteAll ::
    castles.map (fun c => SqlStmt.insert (insertStatementFor c))

/-- One row of the castles table: `name`, `location`, and a nullable
`image` column. -/
structure Row where
  name : String
  location : String
  image : Option String
  deriving Repr, DecidableEq

/-- The castles table: `none` when the table does not exist yet, otherwise
its rows in insertion order. -/
abbrev Table := Option (List Row)

/-- Modelled from the spec: the SQL files `createTable.sql`,
`deleteData.sql`, `insertCastleImage.sql` and `insertCastleWithoutImage.sql`
are not in the repository, so their semantics follow section 4.6 of the
spec: a schema-creation statement (the table exists afterwards and existing
rows survive, since repeated runs must not fail), a delete-all statement
(removes every row), and the two insert variants (append one row; the
two-parameter variant leaves the nullable `image` column NULL). -/
def execStmt (st : Table) : SqlStmt → Table
  | .createTable => some ((st : Option (List Row)).getD [])
  | .deleteAll => (st : Option (List Row)).map (fun _ => [])
  | .insert (.withImage n l img) =>
      (st : Option (List Row)).map (fun rows => rows ++ [⟨n, l, some img⟩])
  | .insert (.withoutImage n l) =>
      (st : Option (List Row)).map (fun rows => rows ++ [⟨n, l, none⟩])

/-- One persistence run of `main` (src lines 228-251) over a starting table
state: execute the statement sequence in order. -/
def runPersistence (castles : List Castle) (st : Table) : Table :=
  (persistenceStatements castles).foldl execStmt st

/-- The row a castle ends up as after a persistence run: the image column
holds the record's image when that image is Python-truthy (present and
non-empty), and NULL otherwise. -/
def rowOf (c : Castle) : Row :=
  { name := c.name, location := c.location,
    image := if pyTruthy c.image then c.image else none }

/-- The option-0 filter of `main` (src line 208):
`[castle for castle in castles if castle["image"] is not None]`.
The test is identity with `None`, i.e. key presence, not truthiness. -/
def castlesWithImages (castles : List Castle) : List Castle :=
  castles.filter (fun castle => castle.image.isSome)

/-- Decimal digit test used by the integer parser. -/
def isDigitChar (c : Char) : Bool := decide ('0' ≤ c) && decide (c ≤ '9')

/-- Parse a non-empty all-digit character list to its value. -/
def parseDigits (cs : List Char) : Option Nat :=
  if cs ≠ [] ∧ cs.all isDigitChar then
    some (cs.foldl (fun acc c => 10 * acc + (c.toNat - '0'.toNat)) 0)
  else none

/-- Whitespace characters ignored around a Python integer literal. -/
def isSpaceChar (c : Char) : Bool :=
  c == ' ' || c == '\t' || c == '\n' || c == '\r'

/-- Drop surrounding whitespace from a character list. -/
def stripSpaces (cs : List Char) : List Char :=
  ((cs.dropWhile isSpaceChar).reverse.dropWhile isSpaceChar).reverse

/-- Python `int(str)` on the inputs this program can meet: surrounding
whitespace is ignored, then an optional single sign followed by one or more
decimal digits; anything else raises ValueError, modelled as `none`.
(Python also accepts underscores between digits; no claim depends on
that.)  This backs `is_integer` (src lines 88-101) and the `int(inp)`
conversion at src line 127. -/
def parsePythonInt (s : String) : Option Int :=
  match stripSpaces s.toList with
  | '-' :: rest => (parseDigits rest).map (fun n => -(n : Int))
  | '+' :: rest => (parseDigits rest).map (fun n => (n : Int))
  | cs => (parseDigits cs).map (fun n => (n : Int))

/-- The function `is_integer` (src lines 88-101): true exactly when
`int(val)` succeeds. -/
def is_integer (val : String) : Bool := (parsePythonInt val).isSome

/-- The function `get_integer_input_in_range` (src lines 103-133), with the
console modelled as the list of lines `input()` will return.  Each
iteration reads a line; a non-integer line re-enters the loop, an
out-of-range integer prints a diagnostic and clears `inp` so the loop
continues, and an in-range integer makes the loop condition false so
`int_val` is returned.  Exhausting the input (EOFError in Python, i.e. the
loop never returns) is `none`. -/
def get_integer_input_in_range (min_val max_val : Int) :
    List String → Option Int
  | [] => none
  | line :: rest =>
    match parsePythonInt line with
    | none => get_integer_input_in_range min_val max_val rest
    | some v =>
      if v < min_val ∨ v > max_val then
        get_integer_input_in_range min_val max_val rest
      else some v

/-- The function `get_option_from_list` (src lines 135-153): read an
integer in `[1, len(list_of_options)]` and return it minus one. -/
def get_option_from_list (list_of_options : List String)
    (inputs : List String) : Option Int :=
  (get_integer_input_in_range 1 (list_of_options.length : Int) inputs).map
    (fun v => v - 1)

/-! ## Helper lemmas -/

/-- A successful `mapBinding` copies the binding fields verbatim. -/
lemma mapBinding_some {b : Binding} {c : Castle} (h : mapBinding b = some c) :
    b.itemLabel = some c.name ∧ b.locationLabel = some c.location ∧
      b.image = c.image := by
  unfold mapBinding at h
  cases hn : b.itemLabel with
  | none => rw [hn] at h; exact absurd h (by simp)
  | some n =>
    cases hl : b.locationLabel with
    | none => rw [hn, hl] at h; exact absurd h (by simp)
    | some l =>
      rw [hn, hl] at h
      cases h
      exact ⟨rfl, rfl, rfl⟩

/-- When the two required keys are present, `mapBinding` succeeds. -/
lemma mapBinding_isSome {b : Binding} (hn : b.itemLabel.isSome)
    (hl : b.locationLabel.isSome) : (mapBinding b).isSome := by
  obtain ⟨n, hn⟩ := Option.isSome_iff_exists.mp hn
  obtain ⟨l, hl⟩ := Option.isSome_iff_exists.mp hl
  unfold mapBinding
  rw [hn, hl]
  rfl

/-- Pointwise structure of a successful mapper run: one castle per binding,
in the same positions. -/
lemma get_castles_pointwise {bindings : List Binding} {castles : List Castle}
    (h : get_castles_from_json bindings = some castles) :
    castles.length = bindings.length ∧
      ∀ i (hc : i < castles.length) (hb : i < bindings.length),
        mapBinding (bindings.get ⟨i, hb⟩) = some (castles.get ⟨i, hc⟩) := by
  induction bindings generalizing castles with
  | nil =>
    unfold get_castles_from_json at h
    cases h
    exact ⟨rfl, fun i hc hb => absurd hc (by simp)⟩
  | cons b rest ih =>
    unfold get_castles_from_json at h
    cases hm : mapBinding b with
    | none => rw [hm] at h; exact absurd h (by simp)
    | some c =>
      rw [hm] at h
      cases hr : get_castles_from_json rest with
      | none => rw [hr] at h; exact absurd h (by simp)
      | some cs =>
        rw [hr] at h
        cases h
        obtain ⟨hlen, hpt⟩ := ih hr
        refine ⟨by simp [hlen], ?_⟩
        intro i hc hb
        cases i with
        | zero => simpa using hm
        | succ j =>
          have hc2 : j < cs.length := by simpa using hc
          have hb2 : j < rest.length := by simpa using hb
          simpa using hpt j hc2 hb2

/-- When every binding carries both required keys the mapper succeeds. -/
lemma get_castles_total {bindings : List Binding}
    (h : ∀ b ∈ bindings, b.itemLabel.isSome ∧ b.locationLabel.isSome) :
    ∃ castles, get_castles_from_json bindings = some castles := by
  induction bindings with
  | nil => exact ⟨[], rfl⟩
  | cons b rest ih =>
    obtain ⟨hn, hl⟩ := h b (List.mem_cons_self b rest)
    obtain ⟨c, hc⟩ :=
      Option.isSome_iff_exists.mp (mapBinding_isSome hn hl)
    obtain ⟨cs, hcs⟩ := ih (fun x hx => h x (List.mem_cons_of_mem b hx))
    exact ⟨c :: cs, by unfold get_castles_from_json; rw [hc, hcs]⟩

/-- Every output castle of a successful mapper run comes from some
binding. -/
lemma mem_of_get_castles {bindings : List Binding} {castles : List Castle}
    (h : get_castles_from_json bindings = some castles) :
    ∀ c ∈ castles, ∃ b ∈ bindings, mapBinding b = some c := by
  induction bindings generalizing castles with
  | nil =>
    unfold get_castles_from_json at h
    cases h
    intro c hc
    exact absurd hc (by simp)
  | cons b rest ih =>
    unfold get_castles_from_json at h
    cases hm : mapBinding b with
    | none => rw [hm] at h; exact absurd h (by simp)
    | some c0 =>
      rw [hm] at h
      cases hr : get_castles_from_json rest with
      | none => rw [hr] at h; exact absurd h (by simp)
      | some cs =>
        rw [hr] at h
        cases h
        intro c hc
        rcases List.mem_cons.mp hc with hc | hc
        · exact ⟨b, List.mem_cons_self b rest, hc ▸ hm⟩
        · obtain ⟨b2, hb2, hmb2⟩ := ih hr c hc
          exact ⟨b2, List.mem_cons_of_mem b hb2, hmb2⟩

/-! ## Claim theorems -/

/-- C1: for every well-formed binding list (each binding has the two
required keys), `get_castles_from_json` succeeds and the castle list has
the same length as the binding list, with the castle at each position
produced from the binding at the same position — so no sorting,
deduplication, or filtering happens. -/
theorem mapper_preserves_length_and_order (bindings : List Binding)
    (h : ∀ b ∈ bindings, b.itemLabel.isSome ∧ b.locationLabel.isSome) :
    ∃ castles, get_castles_from_json bindings = some castles ∧
      castles.length = bindings.length ∧
      ∀ i (hc : i < castles.length) (hb : i < bindings.length),
        mapBinding (bindings.get ⟨i, hb⟩) = some (castles.get ⟨i, hc⟩) := by
  obtain ⟨castles, hc⟩ := get_castles_total h
  obtain ⟨hlen, hpt⟩ := get_castles_pointwise hc
  exact ⟨castles, hc, hlen, hpt⟩

/-- C1 witness: the theorem evaluated on a concrete two-binding list. -/
theorem mapper_preserves_length_and_order_witness :
    ∃ castles,
      get_castles_from_json
        [⟨some "Caerphilly Castle", some "Caerphilly", none⟩,
         ⟨some "Conwy Castle", some "Conwy", some "http://x/img.jpg"⟩]
        = some castles ∧
      castles.length =
        ([⟨some "Caerphilly Castle", some "Caerphilly", none⟩,
          ⟨some "Conwy Castle", some "Conwy", some "http://x/img.jpg"⟩] :
            List Binding).length ∧
      ∀ i (hc : i < castles.length)
        (hb : i < ([⟨some "Caerphilly Castle", some "Caerphilly", none⟩,
          ⟨some "Conwy Castle", some "Conwy", some "http://x/img.jpg"⟩] :
            List Binding).length),
        mapBinding (([⟨some "Caerphilly Castle", some "Caerphilly", none⟩,
          ⟨some "Conwy Castle", some "Conwy", some "http://x/img.jpg"⟩] :
            List Binding).get ⟨i, hb⟩) = some (castles.get ⟨i, hc⟩) :=
  mapper_preserves_length_and_order _ (by decide)

/-- C2 counterexample: a record whose image is present but equal to the
empty string is routed to the two-parameter insert statement, because the
branch at src line 244 tests Python truthiness rather than presence — so
the three-parameter variant is not used exactly when image is present. -/
theorem insert_choice_ignores_present_empty_image :
    (Castle.mk "Caerphilly Castle" "Caerphilly" (some "")).image.isSome
      = true ∧
    insertStatementFor (Castle.mk "Caerphilly Castle" "Caerphilly" (some ""))
      = InsertStmt.withoutImage "Caerphilly Castle" "Caerphilly" := by
  exact ⟨rfl, rfl⟩

/-- C2 amended: during a persistence run the statement executed for the
record at position `i` is an insert chosen by truthiness of the image
field: the three-parameter variant (name, location, image) exactly when the
image is present and non-empty, and the two-parameter variant
(name, location) when the image is absent or the empty string. -/
theorem insert_statement_by_image_truthiness (castles : List Castle)
    (i : Nat) (h : i < castles.length) :
    (persistenceStatements castles).get
        ⟨i + 2, by simp [persistenceStatements]; omega⟩
      = SqlStmt.insert (insertStatementFor (castles.get ⟨i, h⟩)) ∧
    (∀ img, (castles.get ⟨i, h⟩).image = some img → img ≠ "" →
      insertStatementFor (castles.get ⟨i, h⟩)
        = InsertStmt.withImage (castles.get ⟨i, h⟩).name
            (castles.get ⟨i, h⟩).location img) ∧
    (((castles.get ⟨i, h⟩).image = none ∨
        (castles.get ⟨i, h⟩).image = some "") →
      insertStatementFor (castles.get ⟨i, h⟩)
        = InsertStmt.withoutImage (castles.get ⟨i, h⟩).name
            (castles.get ⟨i, h⟩).location) := by
  refine ⟨?_, ?_, ?_⟩
  · simp [persistenceStatements]
  · intro img himg hne
    simp only [List.get_eq_getElem] at himg
    simp [insertStatementFor, pyTruthy, himg, hne]
  · intro hcase
    rcases hcase with hcase | hcase <;>
      simp only [List.get_eq_getElem] at hcase <;>
      simp [insertStatementFor, pyTruthy, hcase]

/-- C2 witness: the amended theorem evaluated on a concrete two-record
list, at both positions. -/
theorem insert_statement_by_image_truthiness_witness :
    insertStatementFor
        (([Castle.mk "Conwy Castle" "Conwy" (some "http://x/img.jpg"),
           Castle.mk "Caerphilly Castle" "Caerphilly" none] :
            List Castle).get ⟨0, by decide⟩)
      = InsertStmt.withImage "Conwy Castle" "Conwy" "http://x/img.jpg" ∧
    insertStatementFor
        (([Castle.mk "Conwy Castle" "Conwy" (some "http://x/img.jpg"),
           Castle.mk "Caerphilly Castle" "Caerphilly" none] :
            List Castle).get ⟨1, by decide⟩)
      = InsertStmt.withoutImage "Caerphilly Castle" "Caerphilly" :=
  ⟨((insert_statement_by_image_truthiness
      [Castle.mk "Conwy Castle" "Conwy" (some "http://x/img.jpg"),
       Castle.mk "Caerphilly Castle" "Caerphilly" none] 0 (by decide)).2.1
      "http://x/img.jpg" rfl (by decide)),
   ((insert_statement_by_image_truthiness
      [Castle.mk "Conwy Castle" "Conwy" (some "http://x/img.jpg"),
       Castle.mk "Caerphilly Castle" "Caerphilly" none] 1 (by decide)).2.2
      (Or.inl rfl))⟩

/-- Executing the insert chosen for a castle appends exactly the row
`rowOf` that castle. -/
lemma execStmt_insert (rows : List Row) (c : Castle) :
    execStmt (some rows) (SqlStmt.insert (insertStatementFor c))
      = some (rows ++ [rowOf c]) := by
  cases himg : c.image with
  | none => simp [insertStatementFor, pyTruthy, execStmt, rowOf, himg]
  | some s =>
    by_cases hs : s = "" <;>
      simp [insertStatementFor, pyTruthy, execStmt, rowOf, himg, hs]

/-- Folding the insert statements over an existing table appends the rows
of the castles in order. -/
lemma foldl_inserts (castles : List Castle) (rows : List Row) :
    (castles.map (fun c => SqlStmt.insert (insertStatementFor c))).foldl
        execStmt (some rows)
      = some (rows ++ castles.map rowOf) := by
  induction castles generalizing rows with
  | nil => simp
  | cons c rest ih =>
    simp only [List.map_cons, List.foldl_cons, execStmt_insert]
    rw [ih]
    simp

/-- A persistence run always ends with the table holding exactly the image
of the input records under `rowOf`, regardless of the starting state. -/
lemma runPersistence_eq (castles : List Castle) (st : Table) :
    runPersistence castles st = some (castles.map rowOf) := by
  unfold runPersistence persistenceStatements
  simp only [List.foldl_cons]
  have hcreate : execStmt st SqlStmt.createTable
      = some ((st : Option (List Row)).getD []) := rfl
  rw [hcreate]
  have hdelete : execStmt (some ((st : Option (List Row)).getD []))
      SqlStmt.deleteAll = some [] := rfl
  rw [hdelete]
  simpa using foldl_inserts castles []

/-- C3 counterexample: run over a single record whose image is present but
equal to the empty string, starting from a table with one leftover row.
The leftover row is gone and exactly one row per record remains, but its
image column is NULL rather than the record's image value, so the table
does not contain the record's image value as the claim states. -/
theorem persistence_stores_null_for_empty_image :
    (Castle.mk "Conwy Castle" "Conwy" (some "")).image = some "" ∧
    runPersistence [Castle.mk "Conwy Castle" "Conwy" (some "")]
        (some [Row.mk "Old Castle" "Old Town" none])
      = some [Row.mk "Conwy Castle" "Conwy" none] ∧
    runPersistence [Castle.mk "Conwy Castle" "Conwy" (some "")]
        (some [Row.mk "Old Castle" "Old Town" none])
      ≠ some [Row.mk "Conwy Castle" "Conwy" (some "")] := by
  refine ⟨rfl, by decide, by decide⟩

/-- C3 amended: a persistence run executes the schema statement, the
delete-all statement, then one insert per record in input order, and the
final table holds exactly one row per input record, in order, with that
record's name and location; the image column holds the record's image when
it is present and non-empty, and NULL when it is absent or empty. No rows
of the prior state survive. -/
theorem persistence_replaces_table (castles : List Castle) (st : Table) :
    persistenceStatements castles
      = SqlStmt.createTable :: SqlStmt.deleteAll ::
          castles.map (fun c => SqlStmt.insert (insertStatementFor c)) ∧
    runPersistence castles st = some (castles.map rowOf) :=
  ⟨rfl, runPersistence_eq castles st⟩

/-- C4: running the persistence path twice with identical records leaves
the table exactly as one run does — the second run changes nothing. -/
theorem persistence_idempotent (castles : List Castle) (st : Table) :
    runPersistence castles (runPersistence castles st)
      = runPersistence castles st := by
  rw [runPersistence_eq, runPersistence_eq]

/-- C5: if any binding lacks the required name key (`itemLabel`) or
location key (`locationLabel`), the mapper fails (KeyError, the spec's
SchemaViolation) and produces no record list; a binding that lacks only
`image` does not fail and yields a record with image absent. -/
theorem mapper_fails_on_missing_required_field (bindings : List Binding)
    (n l : String) :
    ((∃ b ∈ bindings, b.itemLabel = none ∨ b.locationLabel = none) →
      get_castles_from_json bindings = none) ∧
    mapBinding { itemLabel := some n, locationLabel := some l, image := none }
      = some { name := n, location := l, image := none } := by
  refine ⟨?_, rfl⟩
  intro ⟨b, hmem, hbad⟩
  induction bindings with
  | nil => exact absurd hmem (by simp)
  | cons b0 rest ih =>
    rcases List.mem_cons.mp hmem with heq | hmem2
    · have hmb : mapBinding b0 = none := by
        subst heq
        unfold mapBinding
        rcases hbad with hbad | hbad
        · rw [hbad]
        · cases hn : b.itemLabel with
          | none => rfl
          | some n2 => simp [hbad]
      unfold get_castles_from_json
      rw [hmb]
    · have hrest : get_castles_from_json rest = none := ih hmem2
      unfold get_castles_from_json
      cases hmb : mapBinding b0 <;> simp [hrest]

/-- C5 witness: the theorem evaluated on a binding list whose single
element lacks `itemLabel`, and on a binding lacking only `image`. -/
theorem mapper_fails_on_missing_required_field_witness :
    get_castles_from_json [⟨none, some "Caerphilly", none⟩] = none ∧
    mapBinding (Binding.mk (some "Conwy Castle") (some "Conwy") none)
      = some (Castle.mk "Conwy Castle" "Conwy" none) :=
  ⟨(mapper_fails_on_missing_required_field
        [⟨none, some "Caerphilly", none⟩] "Conwy Castle" "Conwy").1
      ⟨⟨none, some "Caerphilly", none⟩, by simp, Or.inl rfl⟩,
   (mapper_fails_on_missing_required_field
        [⟨none, some "Caerphilly", none⟩] "Conwy Castle" "Conwy").2⟩

/-- C6: under option 0 the candidate list is exactly the records whose
image is present, and any record picked from it (at any index, hence by
`random.choice`) has its image present — an image-less record is never
chosen. -/
theorem option_zero_picks_image_bearing_record (castles : List Castle)
    (i : Nat) (h : i < (castlesWithImages castles).length) :
    ((castlesWithImages castles).get ⟨i, h⟩).image.isSome = true ∧
    ∀ c, c ∈ castlesWithImages castles ↔
      c ∈ castles ∧ c.image.isSome = true := by
  constructor
  · have hmem : (castlesWithImages castles).get ⟨i, h⟩
        ∈ castlesWithImages castles := List.get_mem _ _ _
    exact (List.mem_filter.mp hmem).2
  · intro c
    exact List.mem_filter

/-- C6 witness: the theorem evaluated on the spec scenario of three
records, two of which carry an image. -/
theorem option_zero_picks_image_bearing_record_witness :
    ((castlesWithImages
        [Castle.mk "Conwy Castle" "Conwy" (some "http://x/a.jpg"),
         Castle.mk "Caerphilly Castle" "Caerphilly" none,
         Castle.mk "Harlech Castle" "Harlech" (some "http://x/b.jpg")]).get
      ⟨1, by decide⟩).image.isSome = true :=
  (option_zero_picks_image_bearing_record
      [Castle.mk "Conwy Castle" "Conwy" (some "http://x/a.jpg"),
       Castle.mk "Caerphilly Castle" "Caerphilly" none,
       Castle.mk "Harlech Castle" "Harlech" (some "http://x/b.jpg")]
      1 (by decide)).1

/-- C7: whenever the input loop returns a value, that value is an integer
within the inclusive bounds that was parsed from one of the input lines
(every non-integer or out-of-range line having been rejected and
re-prompted); on inputs `["abc", "-5", "3"]` with bounds `[1, 5]` it
returns `3`. -/
theorem bounded_integer_input (min_val max_val : Int)
    (inputs : List String) :
    (∀ v, get_integer_input_in_range min_val max_val inputs = some v →
      min_val ≤ v ∧ v ≤ max_val ∧
        ∃ line ∈ inputs, parsePythonInt line = some v) ∧
    get_integer_input_in_range 1 5 ["abc", "-5", "3"] = some 3 := by
  refine ⟨?_, by decide⟩
  intro v h
  induction inputs with
  | nil => exact absurd h (by simp [get_integer_input_in_range])
  | cons line rest ih =>
    cases hp : parsePythonInt line with
    | none =>
      simp only [get_integer_input_in_range, hp] at h
      obtain ⟨h1, h2, w, hw, hpw⟩ := ih h
      exact ⟨h1, h2, w, List.mem_cons_of_mem line hw, hpw⟩
    | some v0 =>
      simp only [get_integer_input_in_range, hp] at h
      by_cases hrange : v0 < min_val ∨ v0 > max_val
      · rw [if_pos hrange] at h
        obtain ⟨h1, h2, w, hw, hpw⟩ := ih h
        exact ⟨h1, h2, w, List.mem_cons_of_mem line hw, hpw⟩
      · rw [if_neg hrange] at h
        cases h
        push_neg at hrange
        exact ⟨hrange.1, hrange.2, line, List.mem_cons_self line rest, hp⟩

/-- C7 witness: the theorem applied to the spec scenario, concluding that
`3` lies within the bounds and appears among the input lines. -/
theorem bounded_integer_input_witness :
    (1 : Int) ≤ 3 ∧ (3 : Int) ≤ 5 ∧
      ∃ line ∈ ["abc", "-5", "3"], parsePythonInt line = some 3 :=
  (bounded_integer_input 1 5 ["abc", "-5", "3"]).1 3
    (bounded_integer_input 1 5 ["abc", "-5", "3"]).2

/-- C8 counterexample: the mapper performs no validation, so a binding
whose `itemLabel` value is the empty string yields a record whose name is
empty, refuting the invariant that every produced record has a non-empty
name. -/
theorem mapper_accepts_empty_name :
    get_castles_from_json [Binding.mk (some "") (some "Caerphilly") none]
      = some [Castle.mk "" "Caerphilly" none] ∧
    (Castle.mk "" "Caerphilly" none).name = "" := ⟨rfl, rfl⟩

/-- C8 amended: the mapper copies field values verbatim and validates
nothing, so every produced record has a non-empty name and location, and an
image (when present) satisfying any given property such as URL validity,
exactly when the source bindings' values already do. -/
theorem mapper_preserves_field_properties (bindings : List Binding)
    (castles : List Castle) (U : String → Prop)
    (h : get_castles_from_json bindings = some castles)
    (hn : ∀ b ∈ bindings, ∀ s, b.itemLabel = some s → s ≠ "")
    (hl : ∀ b ∈ bindings, ∀ s, b.locationLabel = some s → s ≠ "")
    (hi : ∀ b ∈ bindings, ∀ s, b.image = some s → U s) :
    ∀ c ∈ castles, c.name ≠ "" ∧ c.location ≠ "" ∧
      ∀ s, c.image = some s → U s := by
  intro c hc
  obtain ⟨b, hb, hmb⟩ := mem_of_get_castles h c hc
  obtain ⟨hbn, hbl, hbi⟩ := mapBinding_some hmb
  exact ⟨hn b hb c.name hbn, hl b hb c.location hbl,
    fun s hs => hi b hb s (hbi ▸ hs)⟩

/-- C8 witness: the amended theorem evaluated on a concrete binding list
with non-empty labels and one image value. -/
theorem mapper_preserves_field_properties_witness :
    (Castle.mk "Conwy Castle" "Conwy" (some "http://x/img.jpg")).name ≠ "" ∧
    (Castle.mk "Conwy Castle" "Conwy" (some "http://x/img.jpg")).location
      ≠ "" ∧
    ∀ s, (Castle.mk "Conwy Castle" "Conwy" (some "http://x/img.jpg")).image
      = some s → s = "http://x/img.jpg" :=
  mapper_preserves_field_properties
    [Binding.mk (some "Conwy Castle") (some "Conwy")
      (some "http://x/img.jpg")]
    [Castle.mk "Conwy Castle" "Conwy" (some "http://x/img.jpg")]
    (fun s => s = "http://x/img.jpg") rfl
    (by intro b hb s hs; simp at hb; rw [hb] at hs
        simp only [Option.some.injEq] at hs; subst hs; decide)
    (by intro b hb s hs; simp at hb; rw [hb] at hs
        simp only [Option.some.injEq] at hs; subst hs; decide)
    (by intro b hb s hs; simp at hb; rw [hb] at hs
        simp only [Option.some.injEq] at hs; subst hs; rfl)
    (Castle.mk "Conwy Castle" "Conwy" (some "http://x/img.jpg")) (by simp)

/-- A successful `mapBinding` has a matching literal dictionary whose
entries are the record fields. -/
lemma castleDict_of_mapBinding {b : Binding} {c : Castle}
    (h : mapBinding b = some c) :
    castleDict b = some [("name", some c.name), ("location", some c.location),
      ("image", c.image)] := by
  obtain ⟨hbn, hbl, hbi⟩ := mapBinding_some h
  unfold castleDict
  rw [hbn, hbl, hbi]

/-- C9: every record the mapper outputs corresponds to a dictionary in
which all three keys `name`, `location`, `image` are defined, with `image`
bound to `None` exactly when the source binding lacks the key; the values
read by the option-0 filter and the insert branch (`castle["image"]`,
`castle["name"]`, `castle["location"]`) are therefore always in the
dictionary's domain. -/
theorem mapper_output_has_all_keys (bindings : List Binding)
    (castles : List Castle)
    (h : get_castles_from_json bindings = some castles) :
    ∀ c ∈ castles, ∃ b ∈ bindings, ∃ d, castleDict b = some d ∧
      dictLookup d "name" = some (some c.name) ∧
      dictLookup d "location" = some (some c.location) ∧
      dictLookup d "image" = some c.image ∧
      (b.image = none → c.image = none) := by
  intro c hc
  obtain ⟨b, hb, hmb⟩ := mem_of_get_castles h c hc
  obtain ⟨hbn, hbl, hbi⟩ := mapBinding_some hmb
  refine ⟨b, hb, _, castleDict_of_mapBinding hmb, ?_, ?_, ?_, ?_⟩
  · rfl
  · rfl
  · rfl
  · intro hnone
    rw [hnone] at hbi
    exact hbi.symm

/-- C9 witness: the theorem evaluated on a concrete binding list with one
image-less binding. -/
theorem mapper_output_has_all_keys_witness :
    ∃ b ∈ [Binding.mk (some "Caerphilly Castle") (some "Caerphilly") none],
      ∃ d, castleDict b = some d ∧
        dictLookup d "name"
          = some (some (Castle.mk "Caerphilly Castle" "Caerphilly" none).name) ∧
        dictLookup d "location"
          = some (some
              (Castle.mk "Caerphilly Castle" "Caerphilly" none).location) ∧
        dictLookup d "image"
          = some (Castle.mk "Caerphilly Castle" "Caerphilly" none).image ∧
        (b.image = none →
          (Castle.mk "Caerphilly Castle" "Caerphilly" none).image = none) :=
  mapper_output_has_all_keys
    [Binding.mk (some "Caerphilly Castle") (some "Caerphilly") none]
    [Castle.mk "Caerphilly Castle" "Caerphilly" none] rfl
    (Castle.mk "Caerphilly Castle" "Caerphilly" none) (by simp)

/-- With an empty range (`max_val < min_val`) every parsed integer is out
of range, so the loop consumes the whole input without returning. -/
lemma loop_none_of_empty_range {min_val max_val : Int}
    (inputs : List String) (h : max_val < min_val) :
    get_integer_input_in_range min_val max_val inputs = none := by
  induction inputs with
  | nil => rfl
  | cons line rest ih =>
    cases hp : parsePythonInt line with
    | none =>
      simp only [get_integer_input_in_range, hp]
      exact ih
    | some v0 =>
      have hr : v0 < min_val ∨ v0 > max_val := by omega
      simp only [get_integer_input_in_range, hp, if_pos hr]
      exact ih

/-- As soon as some input line parses to an in-range integer, the loop
returns a value. -/
lemma loop_some_of_valid_line {min_val max_val : Int}
    {inputs : List String}
    (hex : ∃ line ∈ inputs, ∃ v, parsePythonInt line = some v ∧
      min_val ≤ v ∧ v ≤ max_val) :
    (get_integer_input_in_range min_val max_val inputs).isSome = true := by
  induction inputs with
  | nil =>
    obtain ⟨line, hmem, _⟩ := hex
    exact absurd hmem (by simp)
  | cons line0 rest ih =>
    obtain ⟨line, hmem, v, hpv, hv1, hv2⟩ := hex
    cases hp : parsePythonInt line0 with
    | none =>
      simp only [get_integer_input_in_range, hp]
      apply ih
      rcases List.mem_cons.mp hmem with heq | hmem2
      · subst heq
        rw [hp] at hpv
        exact absurd hpv (by simp)
      · exact ⟨line, hmem2, v, hpv, hv1, hv2⟩
    | some v0 =>
      by_cases hr : v0 < min_val ∨ v0 > max_val
      · simp only [get_integer_input_in_range, hp, if_pos hr]
        apply ih
        rcases List.mem_cons.mp hmem with heq | hmem2
        · subst heq
          rw [hp] at hpv
          simp only [Option.some.injEq] at hpv
          omega
        · exact ⟨line, hmem2, v, hpv, hv1, hv2⟩
      · simp only [get_integer_input_in_range, hp, if_neg hr]
        rfl

/-- C10: with an inverted range (`max_val < min_val`) the input loop never
returns, whatever lines arrive (it rejects every integer and exhausts the
input); in particular `get_option_from_list` on an empty options list,
which uses bounds `[1, 0]`, never returns; and with a sane range the loop
returns as soon as the input supplies a line parsing to an in-range
integer. -/
theorem input_loop_range_behavior (min_val max_val : Int)
    (inputs : List String) :
    (max_val < min_val →
      get_integer_input_in_range min_val max_val inputs = none) ∧
    get_option_from_list [] inputs = none ∧
    (min_val ≤ max_val →
      (∃ line ∈ inputs, ∃ v, parsePythonInt line = some v ∧
        min_val ≤ v ∧ v ≤ max_val) →
      (get_integer_input_in_range min_val max_val inputs).isSome = true) := by
  refine ⟨fun h => loop_none_of_empty_range inputs h, ?_,
    fun _ hex => loop_some_of_valid_line hex⟩
  have h0 : get_integer_input_in_range 1 0 inputs = none :=
    loop_none_of_empty_range inputs (by omega)
  simp [get_option_from_list, h0]

/-- C10 witness: the theorem evaluated on concrete runs — inverted bounds
`[1, 0]` reject the valid line `"5"`, the empty options list never
returns, and bounds `[1, 5]` accept the line `"3"`. -/
theorem input_loop_range_behavior_witness :
    get_integer_input_in_range 1 0 ["5"] = none ∧
    get_option_from_list [] ["2"] = none ∧
    (get_integer_input_in_range 1 5 ["abc", "3"]).isSome = true :=
  ⟨(input_loop_range_behavior 1 0 ["5"]).1 (by decide),
   (input_loop_range_behavior 1 0 ["2"]).2.1,
   (input_loop_range_behavior 1 5 ["abc", "3"]).2.2 (by decide)
     ⟨"3", by simp, 3, by decide, by decide, by decide⟩⟩

end WelshCastles
